import Mathlib

/-!
Verification of the guvnor process supervisor / reverse proxy.

Each Go structure and function used by the verified properties is
translated into a Lean definition, keeping the source names and the
source control flow.  Pure decision logic (routing, validation, health
evaluation, restart decisions, stop-status mapping, the circular log
buffer, tracking-header construction, certificate-info extraction) is
embedded as executable functions; the surrounding I/O (sockets, OS
processes, clocks, random bytes) enters as explicit parameters.

Go `int` values are modelled as `Int`, durations as integer
nanoseconds or milliseconds as noted at each definition, byte values
as `Nat` below 256.
-/

namespace Guvnor

/-! ## Data model (internal/config/config.go) -/

/-- `HealthCheckConfig` from internal/config/config.go.  Durations are
integer nanoseconds.  The struct has no expected-status field. -/
structure HealthCheckConfig where
  enabled  : Bool
  path     : String
  interval : Int
  timeout  : Int
  retries  : Int
deriving Repr, DecidableEq

/-- `RestartPolicy` from internal/config/config.go.  `backoff` is in
integer nanoseconds. -/
structure RestartPolicy where
  enabled    : Bool
  maxRetries : Int
  backoff    : Int
deriving Repr, DecidableEq

/-- `AppTLSConfig` from internal/config/config.go (fields read by
`Validate`; the manual cert-file paths are not used by any verified
property). -/
structure AppTLSConfig where
  enabled  : Bool
  autoCert : Bool
  email    : String
  staging  : Bool
deriving Repr, DecidableEq

/-- `AppConfig` from internal/config/config.go: one backend
application.  `hostname` is the virtual-host routing field, `domain`
the deprecated older routing field kept for backward compatibility.
Fields not read by any verified property (`args`, `workingDir`,
`environment`) are omitted. -/
structure AppConfig where
  name          : String
  hostname      : String
  domain        : String
  port          : Int
  command       : String
  healthCheck   : HealthCheckConfig
  restartPolicy : RestartPolicy
  tls           : AppTLSConfig
deriving Repr, DecidableEq

/-- `ServerConfig` from internal/config/config.go (the two port fields
read by `Validate`; the timeout and log-level fields are not used by
any verified property). -/
structure ServerConfig where
  httpPort  : Int
  httpsPort : Int
deriving Repr, DecidableEq

/-- `TLSConfig` from internal/config/config.go (fields read by
`Validate`). -/
structure TLSConfig where
  enabled  : Bool
  autoCert : Bool
  email    : String
  staging  : Bool
deriving Repr, DecidableEq

/-- `Config` from internal/config/config.go. -/
structure Config where
  server : ServerConfig
  apps   : List AppConfig
  tls    : TLSConfig
deriving Repr, DecidableEq

/-! ## Certificate info extraction (internal/cert/utils.go) -/

/-- The fields of an `x509.Certificate` read by
`ExtractCertificateInfo`.  Times are integers (nanoseconds since the
epoch); `Time.Before` is integer `<`. -/
structure Certificate where
  subject    : String
  issuer     : String
  serial     : Int
  notBefore  : Int
  notAfter   : Int
  commonName : String
deriving Repr, DecidableEq

/-- `CertificateInfo` from internal/cert/utils.go. -/
structure CertificateInfo where
  subject    : String
  issuer     : String
  serial     : Int
  notBefore  : Int
  notAfter   : Int
  isExpired  : Bool
  commonName : String
deriving Repr, DecidableEq

/-- `ExtractCertificateInfo` from internal/cert/utils.go.  A nil
certificate pointer is `none`.  The `IsExpired` field is computed as
`cert.NotAfter.Before(cert.NotBefore)`, i.e. `notAfter < notBefore`;
no clock is consulted. -/
def ExtractCertificateInfo (cert : Option Certificate) : Option CertificateInfo :=
  cert.map fun c =>
    { subject    := c.subject
      issuer     := c.issuer
      serial     := c.serial
      notBefore  := c.notBefore
      notAfter   := c.notAfter
      isExpired  := decide (c.notAfter < c.notBefore)
      commonName := c.commonName }

/-! ## Proxy routing and error mapping (internal/proxy/server.go) -/

/-- The host-to-app lookup of `proxyRequest`
(internal/proxy/server.go, lines 355-362): the first configured app
whose `Domain` field is byte-for-byte equal to the request `Host` is
selected; the loop breaks on the first match. -/
def findTargetApp (apps : List AppConfig) (host : String) : Option AppConfig :=
  apps.find? fun app => app.domain == host

/-- Result of `proxyRequest`: either an error response written with
`http.Error` (status and message), or the request is forwarded to the
backend. -/
inductive ProxyResult where
  | response (status : Nat) (body : String)
  | proxied
deriving Repr, DecidableEq

/-- The decision logic of `proxyRequest` (internal/proxy/server.go,
lines 349-419).  `procState name` is `none` when
`GetProcess` reports no process of that name, otherwise
`some r` where `r` is the value of `IsRunning()`.  `backendError`
tells whether the reverse-proxy round trip to the backend failed (the
`ErrorHandler` path). -/
def proxyRequest (apps : List AppConfig) (host : String)
    (procState : String → Option Bool) (backendError : Bool) : ProxyResult :=
  match findTargetApp apps host with
  | none => .response 404 "Domain not found"
  | some targetApp =>
    match procState targetApp.name with
    | none => .response 503 "Service Unavailable"
    | some isRunning =>
      if !isRunning then .response 503 "Service Unavailable"
      else if backendError then .response 502 "Bad Gateway"
      else .proxied

/-- Modelled from the spec: ASCII case folding for the
case-insensitive comparison claimed in §4.6 (uppercase letter codes
mapped to lowercase). -/
def specCaseFold (n : Nat) : Nat :=
  if 65 ≤ n ∧ n ≤ 90 then n + 32 else n

/-- Modelled from the spec: the request `Host` normalized as §4.6
describes — any `:port` suffix stripped, then case folded — as a
sequence of character codes. -/
def specNormalizeHost (host : String) : List Nat :=
  (host.data.takeWhile fun c => c ≠ ':').map fun c => specCaseFold c.toNat

/-- Modelled from the spec: routing by normalized `hostname` as §4.6
describes it (case-insensitive, port suffix stripped).  This
definition exists only to be compared with `findTargetApp`, which is
the rule the source implements. -/
def specFindByHostname (apps : List AppConfig) (host : String) : Option AppConfig :=
  apps.find? fun app =>
    (app.hostname.data.map fun c => specCaseFold c.toNat) == specNormalizeHost host

/-! ## Process lifecycle (internal/process/manager.go) -/

/-- `ProcessStatus` from internal/process/manager.go. -/
inductive ProcessStatus where
  | stopped
  | starting
  | running
  | stopping
  | failed
deriving Repr, DecidableEq

/-- What the `monitor` goroutine does once `cmd.Wait` returns:
whether `Start` is invoked again, the resulting restart counter, and
the resulting status. -/
structure MonitorOutcome where
  restartTriggered : Bool
  restarts         : Int
  status           : ProcessStatus
deriving Repr, DecidableEq

/-- The exit-handling logic of `monitor`
(internal/process/manager.go, lines 534-589).  `statusAtExit` is the
value of `p.status` when `cmd.Wait` returns (`wasRunning` in the
source is `statusAtExit = running`).  When the process was Running, a
restart is scheduled iff the restart policy is enabled, the exit code
is non-zero, and `restarts < maxRetries`; every other Running exit
falls into the `else` branch, which sets `StatusFailed`.  When the
process was not Running the goroutine does nothing (the deferred
cleanup only rewrites a still-Running status). -/
def monitor (policy : RestartPolicy) (restarts : Int)
    (statusAtExit : ProcessStatus) (exitCode : Int) : MonitorOutcome :=
  if statusAtExit = .running then
    if policy.enabled && exitCode != 0 && decide (restarts < policy.maxRetries) then
      { restartTriggered := true, restarts := restarts + 1, status := .stopped }
    else
      { restartTriggered := false, restarts := restarts, status := .failed }
  else
    { restartTriggered := false, restarts := restarts, status := statusAtExit }

/-- The graceful-stop window of `stopProcess`
(internal/process/manager.go, line 430): `10 * time.Second`,
expressed in milliseconds.  The same literal is used by
`stopProcessWithResult` when classifying the stop. -/
def gracefulWindowMs : Nat := 10000

/-- Outcome of `Process.stopProcess`. -/
structure StopOutcome where
  termSignalSent : Bool
  forceKilled    : Bool
  waitedMs       : Nat
  status         : ProcessStatus
deriving Repr, DecidableEq

/-- `stopProcess` from internal/process/manager.go (lines 377-440),
for an execution in which the caller context is not cancelled.
`hasProcess` is `p.process != nil`; `signalOk` tells whether sending
the termination signal succeeded; `exitsAfterMs` is the wall-clock
time after the signal at which the child exits (`none`: it never
exits).  The `select` takes the `done` channel when the child exits
within the 10 s window, and the `time.After` branch — which force
kills — otherwise. -/
def stopProcess (hasProcess : Bool) (signalOk : Bool)
    (exitsAfterMs : Option Nat) : StopOutcome :=
  if !hasProcess then
    { termSignalSent := false, forceKilled := false, waitedMs := 0, status := .stopped }
  else if !signalOk then
    { termSignalSent := true, forceKilled := false, waitedMs := 0, status := .stopped }
  else
    match exitsAfterMs with
    | some t =>
      if t ≤ gracefulWindowMs then
        { termSignalSent := true, forceKilled := false, waitedMs := t, status := .stopped }
      else
        { termSignalSent := true, forceKilled := true, waitedMs := gracefulWindowMs, status := .stopped }
    | none =>
      { termSignalSent := true, forceKilled := true, waitedMs := gracefulWindowMs, status := .stopped }

/-- The status classification of `stopProcessWithResult`
(internal/process/enhanced_manager.go, lines 112-156): `not_running`
when the process is not running, `error` when `Stop` returned an
error, otherwise `killed` iff the measured stop duration exceeded
`10 * time.Second`, and `stopped` otherwise. -/
def stopResultStatus (isRunning : Bool) (stopErr : Option String)
    (durationMs : Nat) : String :=
  if !isRunning then "not_running"
  else
    match stopErr with
    | some _ => "error"
    | none => if durationMs > gracefulWindowMs then "killed" else "stopped"

/-! ## Health checking (health checker, src/internal/env/env.go
second unit, package health) -/

/-- `Status` from the health package. -/
inductive HealthStatus where
  | healthy
  | unhealthy
  | unknown
deriving Repr, DecidableEq

/-- The fields of the health `Result` used by the restart decision. -/
structure HealthResult where
  status     : HealthStatus
  statusCode : Int
deriving Repr, DecidableEq

/-- The status-code classification of `CheckApp` (package health,
`resp.StatusCode >= 200 && resp.StatusCode < 300`). -/
def checkAppStatus (statusCode : Int) : HealthStatus :=
  if 200 ≤ statusCode ∧ statusCode < 300 then .healthy else .unhealthy

/-- `getConsecutiveFailures` from the health package: it reads only
the latest stored result, returning 0 when there is none or it is
healthy, and the constant 1 otherwise (the source comments call this
a simplification placeholder). -/
def getConsecutiveFailures (lastResult : Option HealthResult) : Int :=
  match lastResult with
  | none => 0
  | some result => if result.status = .healthy then 0 else 1

/-- `handleUnhealthyApp` from the health package: returns whether
`Restart` is invoked for the app.  `resetConsecutiveFailures` in the
source is an empty placeholder, so no state changes on restart. -/
def handleUnhealthyApp (healthCheck : HealthCheckConfig)
    (lastResult : Option HealthResult) (procExists : Bool)
    (restartPolicyEnabled : Bool) : Bool :=
  let consecutiveFailures := getConsecutiveFailures lastResult
  if consecutiveFailures ≥ healthCheck.retries then
    procExists && restartPolicyEnabled
  else false

/-- The per-probe state of the health loop: the stored latest result
for the app and how many restarts the prober has invoked. -/
structure ProbeState where
  lastResult        : Option HealthResult
  restartsTriggered : Nat
deriving Repr, DecidableEq

/-- `performCheck` from the health package, for a probe of a running
process that answered with `statusCode`: store the result, and when
it is unhealthy run `handleUnhealthyApp` on the freshly stored
result. -/
def performCheck (healthCheck : HealthCheckConfig)
    (restartPolicyEnabled : Bool) (st : ProbeState)
    (statusCode : Int) : ProbeState :=
  let result : HealthResult := { status := checkAppStatus statusCode, statusCode := statusCode }
  let stored : ProbeState := { st with lastResult := some result }
  if result.status = .unhealthy then
    if handleUnhealthyApp healthCheck stored.lastResult true restartPolicyEnabled then
      { stored with restartsTriggered := stored.restartsTriggered + 1 }
    else stored
  else stored

/-- A sequence of probes of a running process, each answered with the
given status code, starting from no stored result. -/
def runProbes (healthCheck : HealthCheckConfig)
    (restartPolicyEnabled : Bool) (codes : List Int) : ProbeState :=
  codes.foldl (performCheck healthCheck restartPolicyEnabled)
    { lastResult := none, restartsTriggered := 0 }

/-- Modelled from the spec: §4.4 — a probe is successful iff the HTTP
status is in [200, 300), or equals `expectedStatus` when that option
is explicitly set.  The `HealthCheckConfig` of
internal/config/config.go has no expected-status field (the option
appears only in docs/configuration.md), so this definition exists
only to be compared with `checkAppStatus`. -/
def specProbeHealthy (expectedStatus : Option Int) (statusCode : Int) : Bool :=
  match expectedStatus with
  | some expected => statusCode == expected
  | none => decide (200 ≤ statusCode ∧ statusCode < 300)

/-! ## Tracking-chain header (proxy tracking unit, src/unnamed/part_012) -/

/-- The two server settings read by `injectTrackingHeader`
(`s.config.Server.EnableTracking` and `s.config.Server.TrackingHeader`).
Modelled from the spec: the `ServerConfig` variant declaring these
fields is not under src; §3 lists them as `enableTracking` and
`trackingHeader` of the server configuration. -/
structure TrackingSettings where
  enableTracking : Bool
  trackingHeader : String
deriving Repr, DecidableEq

/-- Two lowercase hex digits of one byte, as printed for each byte by
the Go verb `%x` on a byte slice. -/
def hexByte (b : Nat) : List Char :=
  [Nat.digitChar (b / 16 % 16), Nat.digitChar (b % 16)]

/-- Lowercase hex of a byte sequence (`%x`). -/
def hexBytes (bs : List Nat) : List Char :=
  (bs.map hexByte).flatten

/-- The bit fiddling of `generateUUID4`:
`b[6] = (b[6] & 0x0f) | 0x40` and `b[8] = (b[8] & 0x3f) | 0x80`. -/
def maskUUIDBytes (b : List Nat) : List Nat :=
  let b1 := b.set 6 (b.getD 6 0 &&& 0x0f ||| 0x40)
  b1.set 8 (b1.getD 8 0 &&& 0x3f ||| 0x80)

/-- `generateUUID4` from the proxy tracking unit.  `randBytes` is the
result of `rand.Read` on a 16-byte buffer (`none` when the read
fails, in which case the source falls back to a timestamp string with
nanoseconds `fallbackNano`).  On success the version and variant bits
are set and the bytes are printed as `%x-%x-%x-%x-%x` over the slices
`[0:4] [4:6] [6:8] [8:10] [10:16]`. -/
def generateUUID4 (randBytes : Option (List Nat)) (fallbackNano : Int) : String :=
  match randBytes with
  | none => "fallback-" ++ toString fallbackNano
  | some bytes =>
    let b := maskUUIDBytes bytes
    String.mk (hexBytes (b.take 4) ++ ['-'] ++
      hexBytes ((b.drop 4).take 2) ++ ['-'] ++
      hexBytes ((b.drop 6).take 2) ++ ['-'] ++
      hexBytes ((b.drop 8).take 2) ++ ['-'] ++
      hexBytes ((b.drop 10).take 6))

/-- The header written by `injectTrackingHeader` from the proxy
tracking unit: `none` when tracking is disabled (the header is not
set), otherwise the header name (defaulted) and the value set on the
forwarded request.  `inbound` is the inbound request's value of the
tracking header (`""` when absent, as returned by `Header.Get`); the
fresh UUID comes from one call of `generateUUID4`. -/
def injectTrackingHeader (settings : TrackingSettings) (inbound : String)
    (randBytes : Option (List Nat)) (fallbackNano : Int) : Option (String × String) :=
  if !settings.enableTracking then none
  else
    let headerName :=
      if settings.trackingHeader = "" then "X-GUVNOR-TRACKING"
      else settings.trackingHeader
    let newUUID := generateUUID4 randBytes fallbackNano
    let existingHeader := inbound
    let trackingValue :=
      if existingHeader ≠ "" then existingHeader ++ ";" ++ newUUID
      else newUUID
    some (headerName, trackingValue)

/-- Hex digit characters produced by `%x`: `Nat.digitChar` of the
sixteen values a nibble can take. -/
def hexDigitChars : List Char :=
  (List.range 16).map Nat.digitChar

/-- Canonical UUID v4 shape: five lowercase hex groups of sizes
8-4-4-4-12 joined by hyphens, the version nibble `4`, and a variant
nibble in 8..b. -/
def IsUUIDv4 (s : String) : Prop :=
  ∃ g1 g2 g3 g4 g5 : List Char,
    s.data = g1 ++ '-' :: (g2 ++ '-' :: (g3 ++ '-' :: (g4 ++ '-' :: g5))) ∧
    g1.length = 8 ∧ g2.length = 4 ∧ g3.length = 4 ∧ g4.length = 4 ∧ g5.length = 12 ∧
    (∀ c ∈ g1 ++ g2 ++ g3 ++ g4 ++ g5, c ∈ hexDigitChars) ∧
    g3.headD ' ' = '4' ∧
    g4.headD ' ' ∈ ['8', '9', 'a', 'b']

/-! ## Circular log buffer (internal/logs/buffer.go) -/

/-- `CircularBuffer` from internal/logs/buffer.go, generic in the
entry type (the source stores `LogEntry` values; the Go zero value of
the entry type is `default`). -/
structure CircularBuffer (α : Type) where
  buffer : List α
  head   : Nat
  tail   : Nat
  size   : Nat
  full   : Bool
deriving Repr

/-- `NewCircularBuffer`: a zeroed slice of length `capacity`. -/
def NewCircularBuffer (α : Type) [Inhabited α] (capacity : Nat) : CircularBuffer α :=
  { buffer := List.replicate capacity default
    head := 0
    tail := 0
    size := capacity
    full := false }

/-- `Add` from internal/logs/buffer.go: write at `tail`, advance
`tail`, advance `head` when already full, and become full when the
new `tail` catches the new `head`. -/
def CircularBuffer.Add (cb : CircularBuffer α) (entry : α) : CircularBuffer α :=
  let buffer := cb.buffer.set cb.tail entry
  let tail := (cb.tail + 1) % cb.size
  let head := if cb.full then (cb.head + 1) % cb.size else cb.head
  let full := if tail = head then true else cb.full
  { buffer := buffer, head := head, tail := tail, size := cb.size, full := full }

/-- `count` from internal/logs/buffer.go. -/
def CircularBuffer.count (cb : CircularBuffer α) : Nat :=
  if cb.full then cb.size else cb.tail

/-- `GetLast` from internal/logs/buffer.go.  The `n ≤ 0` early return
of the Go `int` argument is the `n = 0` case here.  After clamping
`n` to the number of stored entries the start index is computed
(`(tail - n + size) % size` when full — written with the addition
first, as the value is the same for `n ≤ size`), and `n` entries are
read circularly. -/
def CircularBuffer.GetLast [Inhabited α] (cb : CircularBuffer α) (nReq : Nat) : List α :=
  if nReq = 0 then []
  else
    let count := cb.count
    if count = 0 then []
    else
      let n := if nReq > count then count else nReq
      let start :=
        if cb.full then (cb.tail + cb.size - n) % cb.size
        else if n > cb.tail then 0
        else cb.tail - n
      (List.range n).map fun i => cb.buffer.getD ((start + i) % cb.size) default

/-- `GetAll` from internal/logs/buffer.go: `count` entries starting
at `head`. -/
def CircularBuffer.GetAll [Inhabited α] (cb : CircularBuffer α) : List α :=
  (List.range cb.count).map fun i => cb.buffer.getD ((cb.head + i) % cb.size) default

/-- A sequence of `Add` calls. -/
def CircularBuffer.addAll (cb : CircularBuffer α) (entries : List α) : CircularBuffer α :=
  entries.foldl CircularBuffer.Add cb

/-! ## Configuration validation (internal/config/config.go, `Validate`) -/

/-- `findAvailablePort` from internal/config/config.go: the first
port in `startPort..65535` not in use; failing that, the first in
`3000..startPort-1` not in use; failing that, `startPort` itself
(which the caller's duplicate check then rejects). -/
def findAvailablePort (portMap : List Int) (startPort : Int) : Int :=
  let primary := ((List.range (65536 - startPort).toNat).map
    fun i => startPort + i).find? fun p => !portMap.contains p
  match primary with
  | some p => p
  | none =>
    let fallback := ((List.range (startPort - 3000).toNat).map
      fun i => (3000 : Int) + i).find? fun p => !portMap.contains p
    match fallback with
    | some p => p
    | none => startPort

/-- The health-check defaulting of `Validate` (path, interval,
timeout, retries; durations in nanoseconds). -/
def applyHealthCheckDefaults (hc : HealthCheckConfig) : HealthCheckConfig :=
  { hc with
    path := if hc.path = "" then "/health" else hc.path
    interval := if hc.interval = 0 then 30000000000 else hc.interval
    timeout := if hc.timeout = 0 then 5000000000 else hc.timeout
    retries := if hc.retries = 0 then 3 else hc.retries }

/-- The restart-policy defaulting of `Validate`. -/
def applyRestartPolicyDefaults (rp : RestartPolicy) : RestartPolicy :=
  { rp with
    maxRetries := if rp.maxRetries = 0 then 3 else rp.maxRetries
    backoff := if rp.backoff = 0 then 5000000000 else rp.backoff }

/-- The hostname resolution block of the `Validate` loop: the
explicit `hostname`, else the deprecated `domain`, else
`strings.ToLower(name) + ".localhost"`. -/
def resolveHostname (app : AppConfig) : String :=
  if app.hostname = "" then
    if app.domain ≠ "" then app.domain
    else app.name.toLower ++ ".localhost"
  else app.hostname

/-- The port auto-assignment block of the loop: ports `≤ 0` receive
`findAvailablePort(portMap, 3000 + i*1000)`. -/
def resolvePort (portMap : List Int) (idx : Nat) (app : AppConfig) : Int :=
  if app.port ≤ 0 then findAvailablePort portMap (3000 + (idx : Int) * 1000)
  else app.port

/-- The per-app loop of `Validate` (internal/config/config.go, lines
140-210), with the checks in source order: empty name; hostname
resolution; port auto-assignment for `port ≤ 0`, the range error for
`port > 65535`; empty command; duplicate hostname against
`hostnameMap`; duplicate port against `portMap`; the TLS auto-cert
email requirement; then the defaults are written back into the app.
`idx` is the loop index `i`. -/
def validateApps (tlsEmail : String) (idx : Nat) (hostnameMap : List String)
    (portMap : List Int) (apps : List AppConfig) : Except String (List AppConfig) :=
  match apps with
  | [] => .ok []
  | app :: rest =>
    if app.name = "" then .error "app name cannot be empty"
    else
      let hostname := resolveHostname app
      let port := resolvePort portMap idx app
      if app.port > 65535 then .error ("app " ++ app.name ++ ": invalid port")
      else if app.command = "" then .error ("app " ++ app.name ++ ": command cannot be empty")
      else if hostnameMap.contains hostname then .error ("hostname " ++ hostname ++ " is used twice")
      else if portMap.contains port then .error "port is used twice"
      else if app.tls.enabled && app.tls.autoCert && (app.tls.email == "") && (tlsEmail == "") then
        .error ("app " ++ app.name ++ ": email required for TLS auto-cert")
      else
        let app' := { app with
          hostname := hostname
          port := port
          healthCheck := applyHealthCheckDefaults app.healthCheck
          restartPolicy := applyRestartPolicyDefaults app.restartPolicy }
        match validateApps tlsEmail (idx + 1) (hostname :: hostnameMap) (port :: portMap) rest with
        | .error e => .error e
        | .ok rest' => .ok (app' :: rest')

/-- `Validate` from internal/config/config.go: the two server port
range checks, then the per-app loop starting from empty maps.  On
success the configuration with the rewritten apps is returned (the Go
method mutates `c.Apps` in place). -/
def Validate (c : Config) : Except String Config :=
  if c.server.httpPort ≤ 0 ∨ 65535 < c.server.httpPort then .error "invalid HTTP port"
  else if c.server.httpsPort ≤ 0 ∨ 65535 < c.server.httpsPort then .error "invalid HTTPS port"
  else
    match validateApps c.tls.email 0 [] [] c.apps with
    | .error e => .error e
    | .ok apps' => .ok { c with apps := apps' }

/-! ## Fixtures for concrete evaluations -/

/-- A concrete health-check configuration (the documented defaults). -/
def sampleHealthCheck : HealthCheckConfig :=
  { enabled := true, path := "/health", interval := 30000000000
    timeout := 5000000000, retries := 3 }

/-- A concrete restart policy (the documented defaults). -/
def sampleRestartPolicy : RestartPolicy :=
  { enabled := true, maxRetries := 3, backoff := 5000000000 }

/-- A concrete per-app TLS configuration with TLS disabled. -/
def sampleAppTLS : AppTLSConfig :=
  { enabled := false, autoCert := false, email := "", staging := false }

/-- A concrete app, configured through the deprecated `domain` field
so that `Validate` copies it into `hostname` (both fields hold
`web.localhost`, as `Validate` produces for such input). -/
def webApp : AppConfig :=
  { name := "web", hostname := "web.localhost", domain := "web.localhost"
    port := 3001, command := "node"
    healthCheck := sampleHealthCheck
    restartPolicy := sampleRestartPolicy
    tls := sampleAppTLS }

/-! ## C10 — certificate expiry flag -/

/-- C10: for every non-null certificate whose `notBefore` is not
after its `notAfter`, `ExtractCertificateInfo` reports
`IsExpired = false`; no clock enters the computation (the source
compares `notAfter` with `notBefore`, not with the current time), so
this holds in particular for certificates whose `notAfter` lies in
the past. -/
theorem extractCertificateInfo_wellFormed_never_expired
    (c : Certificate) (h : c.notBefore ≤ c.notAfter) :
    (ExtractCertificateInfo (some c)).map CertificateInfo.isExpired = some false := by
  simp [ExtractCertificateInfo, decide_eq_false_iff_not, not_lt, h]

/-- A certificate whose validity window ended at time 100. -/
def oldCert : Certificate :=
  { subject := "CN=old", issuer := "CN=ca", serial := 7
    notBefore := 0, notAfter := 100, commonName := "old" }

/-- Witness for C10: a certificate whose validity ended at time 100 —
long past for any later clock — is still reported as not expired. -/
theorem extractCertificateInfo_wellFormed_never_expired_witness :
    oldCert.notBefore ≤ oldCert.notAfter ∧
    (ExtractCertificateInfo (some oldCert)).map CertificateInfo.isExpired = some false :=
  ⟨by decide, extractCertificateInfo_wellFormed_never_expired oldCert (by decide)⟩

/-! ## C2 — supervision loop exit handling -/

/-- C2: at the failing input — a Running process whose child exits
with status 0 under an enabled restart policy with retries left — the
`monitor` logic of internal/process/manager.go transitions the
process to Failed, not to Stopped as specified: its `else` branch
sets `StatusFailed` for every non-restarting exit, including the
normal zero-status exit it has just logged as "Process exited
normally".  The restart half of the sentence does hold: a non-zero
exit with the policy enabled and `restarts < maxRetries` increments
the counter by exactly one and triggers a start. -/
theorem monitor_zero_exit_marks_failed :
    monitor sampleRestartPolicy 0 .running 0 =
      { restartTriggered := false, restarts := 0, status := .failed } ∧
    monitor sampleRestartPolicy 0 .running 1 =
      { restartTriggered := true, restarts := 1, status := .stopped } := by
  constructor <;> rfl

/-! ## C4 — health-driven restarts -/

/-- C4: at the failing input — an app with `retries = 3`, an enabled
restart policy, and three consecutive failed probes — the health
prober of the source never invokes a restart: `getConsecutiveFailures`
returns the constant 1 for any stored unhealthy result (its own
comments call the tracking a placeholder), so the threshold
`consecutiveFailures ≥ retries` is never reached for `retries ≥ 2`.
The stored failure count remains 1 even after the third consecutive
failure. -/
theorem healthProber_three_failures_no_restart :
    (runProbes sampleHealthCheck true [500, 500, 500]).restartsTriggered = 0 ∧
    getConsecutiveFailures (runProbes sampleHealthCheck true [500, 500, 500]).lastResult = 1 := by
  constructor <;> rfl

/-! ## C5 — health probe success criterion -/

/-- C5: at the failing input — a probe answered with status 301 under
a configured expected status of 301 — the source classifies the probe
as unhealthy: `CheckApp` accepts exactly the statuses in [200, 300)
and the `HealthCheckConfig` of internal/config/config.go has no
expected-status field at all, while the documented (and
spec-modelled) rule accepts the probe. -/
theorem checkApp_ignores_expected_status :
    checkAppStatus 301 = .unhealthy ∧
    specProbeHealthy (some 301) 301 = true ∧
    (∀ code : Int, checkAppStatus code = .healthy ↔ 200 ≤ code ∧ code < 300) := by
  refine ⟨rfl, rfl, fun code => ?_⟩
  unfold checkAppStatus
  split <;> simp_all

/-! ## C7 — graceful stop window and killed/stopped reporting -/

/-- C7: `stopProcess` sends the termination signal, waits at most the
10 s graceful window, lets the child exit gracefully iff it exits
within the window and force kills otherwise; and
`stopProcessWithResult` reports `killed` for a successful stop
exactly when the measured duration exceeded the window, `stopped`
otherwise. -/
theorem stopProcess_graceful_window :
    (∀ t, t ≤ gracefulWindowMs →
      stopProcess true true (some t) =
        { termSignalSent := true, forceKilled := false, waitedMs := t, status := .stopped }) ∧
    (∀ t, gracefulWindowMs < t →
      stopProcess true true (some t) =
        { termSignalSent := true, forceKilled := true, waitedMs := gracefulWindowMs, status := .stopped }) ∧
    (stopProcess true true none).forceKilled = true ∧
    (∀ hasProcess signalOk exitsAfterMs,
      (stopProcess hasProcess signalOk exitsAfterMs).waitedMs ≤ gracefulWindowMs) ∧
    (∀ d, stopResultStatus true none d = "killed" ↔ gracefulWindowMs < d) ∧
    (∀ d, stopResultStatus true none d = "stopped" ↔ d ≤ gracefulWindowMs) := by
  have hsk : ("stopped" : String) ≠ "killed" := by decide
  have hred : ∀ d : Nat, stopResultStatus true none d =
      if gracefulWindowMs < d then "killed" else "stopped" := fun _ => rfl
  refine ⟨fun t ht => ?_, fun t ht => ?_, rfl, fun hasProcess signalOk e => ?_, fun d => ?_, fun d => ?_⟩
  · simp [stopProcess, ht]
  · simp [stopProcess, Nat.not_le.mpr ht]
  · unfold stopProcess
    rcases hasProcess <;> rcases signalOk <;> rcases e with _ | t <;> simp
    all_goals (split <;> simp_all)
  · rw [hred]
    by_cases hd : gracefulWindowMs < d <;> simp [hd, hsk]
  · rw [hred]
    by_cases hd : gracefulWindowMs < d <;> simp [hd, Ne.symm hsk]
    omega
/-- Witness for C7: a child exiting 2 s after the signal is stopped
gracefully; one still alive at 25 s is force killed at the window; a
12.5 s measured stop is reported `killed`, a 3 s one `stopped`. -/
theorem stopProcess_graceful_window_witness :
    stopProcess true true (some 2000) =
      { termSignalSent := true, forceKilled := false, waitedMs := 2000, status := .stopped } ∧
    stopProcess true true (some 25000) =
      { termSignalSent := true, forceKilled := true, waitedMs := gracefulWindowMs, status := .stopped } ∧
    stopResultStatus true none 12500 = "killed" ∧
    stopResultStatus true none 3000 = "stopped" :=
  ⟨stopProcess_graceful_window.1 2000 (by decide),
   stopProcess_graceful_window.2.1 25000 (by decide),
   (stopProcess_graceful_window.2.2.2.2.1 12500).mpr (by decide),
   (stopProcess_graceful_window.2.2.2.2.2 3000).mpr (by decide)⟩

/-! ## C8 — proxy error mapping -/

/-- C8: `proxyRequest` answers 404 with body `Domain not found` when
no app matches the Host, 503 `Service Unavailable` when the matched
app's process is missing or not running, and 502 `Bad Gateway` when
the backend round trip fails. -/
theorem proxyRequest_error_mapping :
    (∀ apps host procState backendError,
      findTargetApp apps host = none →
      proxyRequest apps host procState backendError = .response 404 "Domain not found") ∧
    (∀ apps host procState backendError app,
      findTargetApp apps host = some app →
      (procState app.name = none ∨ procState app.name = some false) →
      proxyRequest apps host procState backendError = .response 503 "Service Unavailable") ∧
    (∀ apps host procState app,
      findTargetApp apps host = some app →
      procState app.name = some true →
      proxyRequest apps host procState true = .response 502 "Bad Gateway") := by
  refine ⟨fun apps host procState backendError h => ?_,
    fun apps host procState backendError app h hp => ?_,
    fun apps host procState app h hp => ?_⟩
  · simp [proxyRequest, h]
  · rcases hp with hp | hp <;> simp [proxyRequest, h, hp]
  · simp [proxyRequest, h, hp]

/-- Witness for C8: with the single app `webApp` routed by its domain,
an unknown host yields 404 `Domain not found`, a matched host with a
stopped process 503, and a matched host with a failing backend 502. -/
theorem proxyRequest_error_mapping_witness :
    proxyRequest [webApp] "nope.localhost" (fun _ => some true) false =
      .response 404 "Domain not found" ∧
    proxyRequest [webApp] "web.localhost" (fun _ => some false) false =
      .response 503 "Service Unavailable" ∧
    proxyRequest [webApp] "web.localhost" (fun _ => some true) true =
      .response 502 "Bad Gateway" :=
  ⟨proxyRequest_error_mapping.1 [webApp] "nope.localhost" (fun _ => some true) false rfl,
   proxyRequest_error_mapping.2.1 [webApp] "web.localhost" (fun _ => some false) false webApp
     rfl (Or.inr rfl),
   proxyRequest_error_mapping.2.2 [webApp] "web.localhost" (fun _ => some true) webApp rfl rfl⟩

/-! ## C1 — host-based routing -/

/-- Counterexample for C1: for the app `webApp` (hostname and domain
`web.localhost`) and a request whose Host carries a port suffix,
the claimed rule (case-insensitive, port stripped) selects the app,
but the source's lookup compares the `Domain` field byte-for-byte
with the full Host and finds nothing, so the request is answered
404 `Domain not found`. -/
theorem routing_not_normalized_counterexample :
    specFindByHostname [webApp] "web.localhost:8080" = some webApp ∧
    findTargetApp [webApp] "web.localhost:8080" = none ∧
    proxyRequest [webApp] "web.localhost:8080" (fun _ => some true) false =
      .response 404 "Domain not found" := by
  refine ⟨?_, rfl, rfl⟩
  decide

/-- C1 (amended): the proxy selects the first configured app whose
`domain` field equals the request Host byte-for-byte — no case
folding, no port stripping, no wildcard matching — and selects
nothing exactly when no app's `domain` equals the Host. -/
theorem findTargetApp_exact_domain_match :
    (∀ apps host app, findTargetApp apps host = some app →
      app ∈ apps ∧ app.domain = host) ∧
    (∀ apps host, findTargetApp apps host = none ↔
      ∀ app ∈ apps, app.domain ≠ host) := by
  constructor
  · intro apps host app h
    refine ⟨List.mem_of_find?_eq_some h, ?_⟩
    have := List.find?_some h
    simpa using this
  · intro apps host
    rw [findTargetApp, List.find?_eq_none]
    simp

/-- Witness for C1 (amended): the exact-Host request `web.localhost`
is routed to `webApp`, which indeed carries that `domain`. -/
theorem findTargetApp_exact_domain_match_witness :
    webApp ∈ [webApp] ∧ webApp.domain = "web.localhost" :=
  findTargetApp_exact_domain_match.1 [webApp] "web.localhost" webApp rfl

/-! ## C6 — configuration uniqueness -/

/-- Two apps that share the name `a` but have distinct hostnames and
ports. -/
def dupNameConfig : Config :=
  { server := { httpPort := 8080, httpsPort := 8443 }
    apps :=
      [{ name := "a", hostname := "h1", domain := "", port := 1, command := "c"
         healthCheck := sampleHealthCheck, restartPolicy := sampleRestartPolicy
         tls := sampleAppTLS },
       { name := "a", hostname := "h2", domain := "", port := 2, command := "c"
         healthCheck := sampleHealthCheck, restartPolicy := sampleRestartPolicy
         tls := sampleAppTLS }]
    tls := { enabled := false, autoCert := false, email := "", staging := false } }

/-- Counterexample for C6: `Validate` accepts a configuration in
which two apps share the name `a` — the source checks hostname and
port uniqueness but never name uniqueness. -/
theorem validate_accepts_duplicate_names :
    Validate dupNameConfig = .ok dupNameConfig ∧
    dupNameConfig.apps.map AppConfig.name = ["a", "a"] := by
  constructor <;> rfl

/-- The per-app validation loop keeps hostnames and ports pairwise
distinct and disjoint from the already-seen sets. -/
theorem validateApps_ok_nodup (tlsEmail : String) :
    ∀ (apps : List AppConfig) (idx : Nat) (hseen : List String)
      (pseen : List Int) (out : List AppConfig),
      validateApps tlsEmail idx hseen pseen apps = .ok out →
      ((out.map AppConfig.hostname).Nodup ∧
        ∀ h ∈ out.map AppConfig.hostname, h ∉ hseen) ∧
      ((out.map AppConfig.port).Nodup ∧
        ∀ p ∈ out.map AppConfig.port, p ∉ pseen) := by
  intro apps
  induction apps with
  | nil =>
    intro idx hseen pseen out h
    simp only [validateApps] at h
    cases h
    simp
  | cons app rest ih =>
    intro idx hseen pseen out h
    simp only [validateApps] at h
    split at h
    · cases h
    · split at h
      · cases h
      · split at h
        · cases h
        · split at h
          · cases h
          · rename_i hnodup
            split at h
            · cases h
            · rename_i hport
              split at h
              · cases h
              · split at h
                · cases h
                · rename_i rest' heq
                  cases h
                  obtain ⟨⟨hhn, hhs⟩, ⟨hpn, hps⟩⟩ := ih (idx + 1) _ _ rest' heq
                  replace hnodup := by simpa using hnodup
                  replace hport := by simpa using hport
                  refine ⟨⟨?_, ?_⟩, ?_, ?_⟩
                  · refine List.nodup_cons.mpr ⟨fun hmem => ?_, hhn⟩
                    exact (hhs _ hmem) (List.mem_cons_self _ _)
                  · intro x hmem
                    rcases List.mem_cons.mp hmem with h1 | h1
                    · subst h1; exact hnodup
                    · intro hh; exact (hhs _ h1) (List.mem_cons_of_mem _ hh)
                  · refine List.nodup_cons.mpr ⟨fun hmem => ?_, hpn⟩
                    exact (hps _ hmem) (List.mem_cons_self _ _)
                  · intro p hmem
                    rcases List.mem_cons.mp hmem with h1 | h1
                    · subst h1; exact hport
                    · intro hh; exact (hps _ h1) (List.mem_cons_of_mem _ hh)

/-- C6 (amended): every configuration accepted by `Validate` has
pairwise-distinct (resolved) hostnames and pairwise-distinct ports
across its apps; name uniqueness, however, is not checked by the
source (see the counterexample). -/
theorem validate_unique_hostnames_ports (c c' : Config)
    (h : Validate c = .ok c') :
    (c'.apps.map AppConfig.hostname).Nodup ∧
    (c'.apps.map AppConfig.port).Nodup := by
  unfold Validate at h
  split at h
  · cases h
  split at h
  · cases h
  split at h
  · cases h
  rename_i apps' heq
  cases h
  obtain ⟨⟨hh, _⟩, ⟨hp, _⟩⟩ := validateApps_ok_nodup c.tls.email c.apps 0 [] [] apps' heq
  exact ⟨hh, hp⟩

/-- Witness for C6 (amended): the accepted two-app configuration has
distinct hostnames `h1`, `h2` and distinct ports 1, 2. -/
theorem validate_unique_hostnames_ports_witness :
    (dupNameConfig.apps.map AppConfig.hostname).Nodup ∧
    (dupNameConfig.apps.map AppConfig.port).Nodup :=
  validate_unique_hostnames_ports dupNameConfig dupNameConfig rfl

/-! ## C3 — tracking chain -/

/-- `Nat.digitChar` of anything reduced mod 16 is a lowercase hex
digit. -/
theorem digitChar_mod16_mem_hex (x : Nat) :
    Nat.digitChar (x % 16) ∈ hexDigitChars := by
  have h : x % 16 < 16 := Nat.mod_lt x (by norm_num)
  exact List.mem_map_of_mem _ (List.mem_range.mpr h)

/-- Every character printed by `%x` is a lowercase hex digit. -/
theorem hexBytes_mem_hex (bs : List Nat) :
    ∀ c ∈ hexBytes bs, c ∈ hexDigitChars := by
  induction bs with
  | nil => simp [hexBytes]
  | cons b bs ih =>
    intro c hc
    simp only [hexBytes, List.map_cons, List.flatten_cons, List.mem_append] at hc
    rcases hc with hc | hc
    · simp only [hexByte, List.mem_cons, List.mem_singleton] at hc
      rcases hc with hc | hc | hc
      · exact hc ▸ digitChar_mod16_mem_hex _
      · exact hc ▸ digitChar_mod16_mem_hex _
      · cases hc
    · exact ih c (by simpa [hexBytes] using hc)

/-- The byte carrying the UUID version prints with leading digit 4. -/
theorem uuid_version_digit (x : Nat) :
    Nat.digitChar ((x &&& 15 ||| 64) / 16 % 16) = '4' := by
  have h : x &&& 15 ≤ 15 := Nat.and_le_right
  generalize x &&& 15 = y at h
  interval_cases y <;> rfl

/-- The byte carrying the UUID variant prints with leading digit in
8..b. -/
theorem uuid_variant_digit (x : Nat) :
    Nat.digitChar ((x &&& 63 ||| 128) / 16 % 16) ∈ (['8', '9', 'a', 'b'] : List Char) := by
  have h : x &&& 63 ≤ 63 := Nat.and_le_right
  generalize x &&& 63 = y at h
  interval_cases y <;> decide

/-- A successful `generateUUID4` call produces a canonical UUID v4
string: five lowercase hex groups of sizes 8-4-4-4-12, the version
nibble 4, and a variant nibble in 8..b. -/
theorem generateUUID4_isUUIDv4
    (b0 b1 b2 b3 b4 b5 b6 b7 b8 b9 b10 b11 b12 b13 b14 b15 : Nat) (nano : Int) :
    IsUUIDv4 (generateUUID4
      (some [b0, b1, b2, b3, b4, b5, b6, b7, b8, b9, b10, b11, b12, b13, b14, b15]) nano) := by
  refine ⟨hexBytes [b0, b1, b2, b3], hexBytes [b4, b5],
    hexBytes [b6 &&& 15 ||| 64, b7], hexBytes [b8 &&& 63 ||| 128, b9],
    hexBytes [b10, b11, b12, b13, b14, b15], ?_, ?_, ?_, ?_, ?_, ?_, ?_, ?_, ?_⟩
  · rfl
  · rfl
  · rfl
  · rfl
  · rfl
  · rfl
  · intro c hc
    simp only [List.append_assoc, List.mem_append] at hc
    rcases hc with hc | hc | hc | hc | hc <;> exact hexBytes_mem_hex _ c hc
  · exact uuid_version_digit b6
  · exact uuid_variant_digit b8

/-- C3: with tracking enabled, the forwarded tracking header is the
inbound value, a `;` separator, and one fresh UUID v4 when the
inbound header is non-empty, and the fresh UUID alone when it is
absent; exactly one `generateUUID4` result is appended, and it is a
canonical UUID v4. -/
theorem injectTrackingHeader_appends_one_uuid
    (settings : TrackingSettings) (inbound : String) (nano : Int)
    (b0 b1 b2 b3 b4 b5 b6 b7 b8 b9 b10 b11 b12 b13 b14 b15 : Nat)
    (henabled : settings.enableTracking = true) :
    injectTrackingHeader settings inbound
        (some [b0, b1, b2, b3, b4, b5, b6, b7, b8, b9, b10, b11, b12, b13, b14, b15]) nano =
      some ((if settings.trackingHeader = "" then "X-GUVNOR-TRACKING" else settings.trackingHeader),
        (if inbound ≠ "" then
          inbound ++ ";" ++ generateUUID4
            (some [b0, b1, b2, b3, b4, b5, b6, b7, b8, b9, b10, b11, b12, b13, b14, b15]) nano
        else generateUUID4
            (some [b0, b1, b2, b3, b4, b5, b6, b7, b8, b9, b10, b11, b12, b13, b14, b15]) nano)) ∧
    IsUUIDv4 (generateUUID4
      (some [b0, b1, b2, b3, b4, b5, b6, b7, b8, b9, b10, b11, b12, b13, b14, b15]) nano) := by
  constructor
  · simp [injectTrackingHeader, henabled]
  · exact generateUUID4_isUUIDv4 b0 b1 b2 b3 b4 b5 b6 b7 b8 b9 b10 b11 b12 b13 b14 b15 nano

/-- Witness for C3: with the default header name and inbound chain
`A`, the sixteen bytes 0..15 produce the forwarded value
`A;00010203-0405-4607-8809-0a0b0c0d0e0f` — the inbound value, `;`,
and the one fresh UUID — and that UUID is canonical v4. -/
theorem injectTrackingHeader_appends_one_uuid_witness :
    injectTrackingHeader { enableTracking := true, trackingHeader := "" } "A"
        (some [0, 1, 2, 3, 4, 5, 6, 7, 8, 9, 10, 11, 12, 13, 14, 15]) 0 =
      some ("X-GUVNOR-TRACKING",
        "A;" ++ generateUUID4 (some [0, 1, 2, 3, 4, 5, 6, 7, 8, 9, 10, 11, 12, 13, 14, 15]) 0) ∧
    IsUUIDv4 (generateUUID4 (some [0, 1, 2, 3, 4, 5, 6, 7, 8, 9, 10, 11, 12, 13, 14, 15]) 0) := by
  have h := injectTrackingHeader_appends_one_uuid
    { enableTracking := true, trackingHeader := "" } "A" 0
    0 1 2 3 4 5 6 7 8 9 10 11 12 13 14 15 rfl
  exact ⟨by simpa using h.1, h.2⟩

/-! ## C9 — circular buffer boundary behaviour -/

/-- The refinement relation between the imperative circular buffer
and its abstract content `l` (oldest first): either the buffer has
never wrapped (`full = false`, `head = 0`, entries at `0..tail-1`),
or it has (`full = true`, `head = tail`, entries read circularly from
`tail`). -/
def BufInv [Inhabited α] (l : List α) (cb : CircularBuffer α) : Prop :=
  cb.buffer.length = cb.size ∧
  ((cb.full = false ∧ cb.head = 0 ∧ cb.tail = l.length ∧ l.length < cb.size ∧
      ∀ i, i < l.length → cb.buffer.getD i default = l.getD i default) ∨
   (cb.full = true ∧ cb.head = cb.tail ∧ cb.tail < cb.size ∧ l.length = cb.size ∧
      ∀ i, i < cb.size → cb.buffer.getD ((cb.tail + i) % cb.size) default = l.getD i default))

/-- Abstract effect of one `Add` on a buffer of capacity `N`: append,
evicting the oldest entry when the capacity is reached. -/
def absAdd (N : Nat) (l : List α) (e : α) : List α :=
  if l.length < N then l ++ [e] else l.drop 1 ++ [e]

/-- A fresh buffer holds the empty content. -/
theorem BufInv_new (α : Type) [Inhabited α] (N : Nat) (hN : 0 < N) :
    BufInv [] (NewCircularBuffer α N) := by
  refine ⟨by simp [NewCircularBuffer], Or.inl ⟨rfl, rfl, rfl, by simpa [NewCircularBuffer] using hN, ?_⟩⟩
  intro i hi
  cases hi

/-- `Add` never changes the capacity field. -/
theorem size_add (cb : CircularBuffer α) (e : α) : (cb.Add e).size = cb.size := rfl

/-- The buffer slice written by `Add`. -/
theorem buffer_add (cb : CircularBuffer α) (e : α) :
    (cb.Add e).buffer = cb.buffer.set cb.tail e := rfl

/-- The tail written by `Add`. -/
theorem tail_add (cb : CircularBuffer α) (e : α) :
    (cb.Add e).tail = (cb.tail + 1) % cb.size := rfl

/-- The head written by `Add`. -/
theorem head_add (cb : CircularBuffer α) (e : α) :
    (cb.Add e).head = if cb.full then (cb.head + 1) % cb.size else cb.head := rfl

/-- The full flag written by `Add`. -/
theorem full_add (cb : CircularBuffer α) (e : α) :
    (cb.Add e).full =
      if (cb.tail + 1) % cb.size = (if cb.full then (cb.head + 1) % cb.size else cb.head)
      then true else cb.full := rfl

/-- One `Add` refines one `absAdd`. -/
theorem BufInv_add [Inhabited α] {l : List α} {cb : CircularBuffer α} (e : α)
    (h : BufInv l cb) : BufInv (absAdd cb.size l e) (cb.Add e) := by
  obtain ⟨hlen, hc⟩ := h
  rcases hc with ⟨hf, h0, ht, hlt, hB⟩ | ⟨hf, hh, ht, hl, hB⟩
  · -- not yet wrapped
    have habs : absAdd cb.size l e = l ++ [e] := if_pos hlt
    have hgetD : ∀ i, i < l.length + 1 →
        (cb.Add e).buffer.getD i default = (absAdd cb.size l e).getD i default := by
      intro i hi
      rw [buffer_add, habs, ht]
      rcases Nat.lt_or_ge i l.length with hil | hil
      · rw [List.getD_eq_getElem?_getD, List.getElem?_set_ne (by omega),
          ← List.getD_eq_getElem?_getD, hB i hil,
          List.getD_eq_getElem?_getD (l := l ++ [e]), List.getElem?_append_left hil,
          ← List.getD_eq_getElem?_getD]
      · have hieq : i = l.length := by omega
        subst hieq
        rw [List.getD_eq_getElem?_getD, List.getElem?_set_self (by omega),
          List.getD_eq_getElem?_getD, List.getElem?_append_right (le_refl _)]
        simp
    by_cases hfill : l.length + 1 < cb.size
    · -- still not wrapped
      have htail : (cb.Add e).tail = l.length + 1 := by
        rw [tail_add, ht, Nat.mod_eq_of_lt hfill]
      refine ⟨by rw [size_add, buffer_add]; simpa using hlen, Or.inl ⟨?_, ?_, ?_, ?_, ?_⟩⟩
      · rw [full_add, hf, ht, h0]
        simp only [Bool.false_eq_true, if_false]
        rw [Nat.mod_eq_of_lt hfill, if_neg (by omega)]
      · rw [head_add, hf]
        simp only [Bool.false_eq_true, if_false]
        exact h0
      · rw [htail, habs]
        simp
      · rw [size_add, habs]
        simp only [List.length_append, List.length_singleton]
        omega
      · intro i hi
        rw [habs] at hi
        simp only [List.length_append, List.length_singleton] at hi
        exact hgetD i (by omega)
    · -- wraps exactly now
      have hsz : l.length + 1 = cb.size := by omega
      have htail : (cb.Add e).tail = 0 := by
        rw [tail_add, ht, hsz, Nat.mod_self]
      have hhead : (cb.Add e).head = 0 := by
        rw [head_add, hf]
        simp only [Bool.false_eq_true, if_false]
        exact h0
      refine ⟨by rw [size_add, buffer_add]; simpa using hlen, Or.inr ⟨?_, ?_, ?_, ?_, ?_⟩⟩
      · rw [full_add, hf, ht, h0, hsz, Nat.mod_self]
        simp
      · rw [htail, hhead]
      · rw [htail, size_add]
        omega
      · rw [size_add, habs]
        simp only [List.length_append, List.length_singleton]
        omega
      · intro i hi
        rw [size_add] at hi
        rw [htail, size_add, Nat.zero_add, Nat.mod_eq_of_lt hi]
        exact hgetD i (by omega)
  · -- already wrapped: the oldest entry is evicted
    have hN : 0 < cb.size := by omega
    have habs : absAdd cb.size l e = l.drop 1 ++ [e] := by
      rw [absAdd, if_neg (by omega)]
    have hfull2 : (cb.Add e).full = true := by
      rw [full_add, hf, hh]
      simp
    have hheadtail : (cb.Add e).head = (cb.Add e).tail := by
      rw [head_add, tail_add, hf, hh]
      simp
    refine ⟨by rw [size_add, buffer_add]; simpa using hlen, Or.inr ⟨hfull2, hheadtail, ?_, ?_, ?_⟩⟩
    · rw [tail_add, size_add]
      exact Nat.mod_lt _ hN
    · rw [size_add, habs]
      simp only [List.length_append, List.length_singleton, List.length_drop]
      omega
    · intro i hi
      rw [size_add] at hi
      rw [buffer_add, tail_add, size_add, habs, Nat.mod_add_mod]
      rcases Nat.lt_or_ge i (cb.size - 1) with hil | hil
      · have hpos : (cb.tail + 1 + i) % cb.size ≠ cb.tail := by
          have hrw : cb.tail + 1 + i = cb.tail + (i + 1) := by omega
          rw [hrw]
          rcases Nat.lt_or_ge (cb.tail + (i + 1)) cb.size with hlt2 | hge2
          · rw [Nat.mod_eq_of_lt hlt2]; omega
          · rw [Nat.mod_eq_sub_mod hge2, Nat.mod_eq_of_lt (by omega)]; omega
        rw [List.getD_eq_getElem?_getD, List.getElem?_set_ne (Ne.symm hpos),
          ← List.getD_eq_getElem?_getD]
        have harw : cb.tail + 1 + i = cb.tail + (i + 1) := by omega
        rw [harw, hB (i + 1) (by omega)]
        rw [List.getD_eq_getElem?_getD (l := l.drop 1 ++ [e]),
          List.getElem?_append_left (by rw [List.length_drop]; omega),
          List.getElem?_drop, ← List.getD_eq_getElem?_getD, Nat.add_comm 1 i]
      · have hieq : i = cb.size - 1 := by omega
        subst hieq
        have hpos : (cb.tail + 1 + (cb.size - 1)) % cb.size = cb.tail := by
          have hrw : cb.tail + 1 + (cb.size - 1) = cb.tail + cb.size := by omega
          rw [hrw, Nat.add_mod_right, Nat.mod_eq_of_lt ht]
        rw [hpos]
        rw [List.getD_eq_getElem?_getD, List.getElem?_set_self (by omega),
          List.getD_eq_getElem?_getD (l := l.drop 1 ++ [e]),
          List.getElem?_append_right (by rw [List.length_drop]; omega),
          List.length_drop,
          show cb.size - 1 - (l.length - 1) = 0 by omega]
        simp

/-- `addAll` never changes the capacity field. -/
theorem size_addAll (cb : CircularBuffer α) (es : List α) :
    (cb.addAll es).size = cb.size := by
  induction es generalizing cb with
  | nil => rfl
  | cons e es ih => simpa [CircularBuffer.addAll, List.foldl_cons] using ih (cb.Add e)

/-- A sequence of `Add` calls refines the fold of `absAdd`. -/
theorem BufInv_addAll [Inhabited α] {l : List α} {cb : CircularBuffer α}
    (es : List α) (h : BufInv l cb) :
    BufInv (List.foldl (absAdd cb.size) l es) (cb.addAll es) := by
  induction es generalizing l cb with
  | nil => simpa [CircularBuffer.addAll] using h
  | cons e es ih =>
    have h1 := BufInv_add e h
    have h2 := ih h1
    simpa [CircularBuffer.addAll, List.foldl_cons, size_add] using h2

/-- Length of the abstract step. -/
theorem absAdd_length {l : List α} (e : α) (hN : 0 < N) (hle : l.length ≤ N) :
    (absAdd N l e).length = min (l.length + 1) N := by
  unfold absAdd
  split
  · rename_i hlt
    rw [Nat.min_eq_left (by omega)]
    simp
  · rename_i hge
    rw [Nat.min_eq_right (by omega)]
    simp only [List.length_append, List.length_singleton, List.length_drop]
    omega

/-- The abstract step as a drop of the extended list. -/
theorem absAdd_eq_drop {l : List α} (e : α) (hN : 0 < N) (hle : l.length ≤ N) :
    absAdd N l e = (l ++ [e]).drop (l.length + 1 - N) := by
  unfold absAdd
  split
  · rw [Nat.sub_eq_zero_of_le (by omega), List.drop_zero]
  · rw [show l.length + 1 - N = 1 by omega,
      List.drop_append_of_le_length (by omega)]

/-- The abstract fold keeps exactly the last `N` entries. -/
theorem foldl_absAdd_drop (N : Nat) (hN : 0 < N) (es : List α) :
    ∀ l : List α, l.length ≤ N →
      List.foldl (absAdd N) l es = (l ++ es).drop (l.length + es.length - N) := by
  induction es with
  | nil =>
    intro l hl
    simp [Nat.sub_eq_zero_of_le hl]
  | cons e es ih =>
    intro l hl
    have h1 : (absAdd N l e).length ≤ N := by
      rw [absAdd_length e hN hl]; omega
    rw [List.foldl_cons, ih _ h1, absAdd_length e hN hl, absAdd_eq_drop e hN hl]
    have hx : (l ++ [e]).drop (l.length + 1 - N) ++ es =
        ((l ++ [e]) ++ es).drop (l.length + 1 - N) :=
      (List.drop_append_of_le_length (by simp)).symm
    rw [hx, List.drop_drop]
    have hy : l ++ e :: es = (l ++ [e]) ++ es := by simp
    rw [hy]
    congr 1
    rw [List.length_cons]
    rcases Nat.le_total (l.length + 1) N with hmin | hmin
    · rw [Nat.min_eq_left hmin]
      omega
    · rw [Nat.min_eq_right hmin]
      omega

/-- Under the invariant, `GetAll` returns the abstract content. -/
theorem GetAll_eq [Inhabited α] {l : List α} {cb : CircularBuffer α}
    (h : BufInv l cb) : cb.GetAll = l := by
  obtain ⟨hlen, hc⟩ := h
  rcases hc with ⟨hf, h0, ht, hlt, hB⟩ | ⟨hf, hh, ht, hl, hB⟩
  · unfold CircularBuffer.GetAll CircularBuffer.count
    rw [hf]
    simp only [Bool.false_eq_true, if_false, h0, Nat.zero_add, ht]
    apply List.ext_getElem
    · simp
    · intro i h1 h2
      simp only [List.getElem_map, List.getElem_range]
      rw [Nat.mod_eq_of_lt (by omega), hB i (by simpa using h2),
        List.getD_eq_getElem?_getD, List.getElem?_eq_getElem (by simpa using h2)]
      simp
  · unfold CircularBuffer.GetAll CircularBuffer.count
    rw [hf]
    simp only [if_true, hh]
    apply List.ext_getElem
    · simp [hl]
    · intro i h1 h2
      simp only [List.getElem_map, List.getElem_range]
      rw [hB i (by simpa using h1), List.getD_eq_getElem?_getD,
        List.getElem?_eq_getElem (by omega)]
      simp

/-- Under the invariant, `GetLast` on a wrapped buffer returns the
requested tail of the abstract content. -/
theorem GetLast_full_eq [Inhabited α] {l : List α} {cb : CircularBuffer α}
    (h : BufInv l cb) (hf : cb.full = true) (m : Nat) (hm : 0 < m) :
    cb.GetLast m = l.drop (cb.size - min m cb.size) := by
  obtain ⟨hlen, hc⟩ := h
  rcases hc with ⟨hf2, _, _, _, _⟩ | ⟨_, hh, ht, hl, hB⟩
  · rw [hf] at hf2; cases hf2
  have hN : 0 < cb.size := by omega
  unfold CircularBuffer.GetLast CircularBuffer.count
  rw [hf]
  simp only [if_true]
  rw [if_neg (by omega), if_neg (by omega)]
  have hmin : (if m > cb.size then cb.size else m) = min m cb.size := by
    split <;> omega
  rw [hmin]
  set n := min m cb.size with hn
  have hn1 : 0 < n := by omega
  have hn2 : n ≤ cb.size := by omega
  apply List.ext_getElem
  · simp only [List.length_map, List.length_range, List.length_drop, hl]
    omega
  · intro i h1 h2
    simp only [List.getElem_map, List.getElem_range]
    have hj : cb.tail + cb.size - n + i = cb.tail + (cb.size - n + i) := by omega
    have hi : i < n := by simpa using h1
    rw [Nat.mod_add_mod, hj, hB (cb.size - n + i) (by omega)]
    rw [List.getD_eq_getElem?_getD, List.getElem?_eq_getElem (by omega)]
    simp only [Option.getD_some]
    rw [List.getElem_drop]

/-- C9: after `N + k` appends into a fresh buffer of capacity
`N > 0`, the buffer retains exactly the last `N` entries in append
order; `GetLast m` with `m > N` returns exactly those `N` entries in
chronological order, and `GetLast m` with `0 < m ≤ N` returns the
last `m` of them. -/
theorem circularBuffer_retains_last_N (α : Type) [Inhabited α] (N k : Nat) (hN : 0 < N)
    (es : List α) (hlen : es.length = N + k) :
    ((NewCircularBuffer α N).addAll es).GetAll = es.drop k ∧
    (∀ m, N < m → ((NewCircularBuffer α N).addAll es).GetLast m = es.drop k) ∧
    (∀ m, 0 < m → m ≤ N →
      ((NewCircularBuffer α N).addAll es).GetLast m = es.drop (N + k - m)) := by
  have hsz : ((NewCircularBuffer α N).addAll es).size = N := size_addAll _ es
  have hinv : BufInv (List.foldl (absAdd N) [] es) ((NewCircularBuffer α N).addAll es) :=
    BufInv_addAll es (BufInv_new α N hN)
  have habs : List.foldl (absAdd N) [] es = es.drop k := by
    rw [foldl_absAdd_drop N hN es [] (by simp)]
    simp only [List.nil_append, List.length_nil, Nat.zero_add]
    congr 1
    omega
  rw [habs] at hinv
  have hfull : ((NewCircularBuffer α N).addAll es).full = true := by
    obtain ⟨_, hc⟩ := hinv
    rcases hc with ⟨_, _, _, hlt, _⟩ | ⟨hf, _, _, _, _⟩
    · exfalso
      rw [List.length_drop, hlen, hsz] at hlt
      omega
    · exact hf
  refine ⟨GetAll_eq hinv, fun m hm => ?_, fun m hm0 hmN => ?_⟩
  · rw [GetLast_full_eq hinv hfull m (by omega), hsz,
      Nat.min_eq_right (by omega), Nat.sub_self, List.drop_zero]
  · rw [GetLast_full_eq hinv hfull m hm0, hsz, Nat.min_eq_left hmN,
      List.drop_drop]
    congr 1
    omega

/-- Witness for C9: capacity 2 with the three appends 1, 2, 3 retains
`[2, 3]`; `GetLast 5` returns both retained entries and `GetLast 1`
the most recent one. -/
theorem circularBuffer_retains_last_N_witness :
    ((NewCircularBuffer Nat 2).addAll [1, 2, 3]).GetAll = [2, 3] ∧
    ((NewCircularBuffer Nat 2).addAll [1, 2, 3]).GetLast 5 = [2, 3] ∧
    ((NewCircularBuffer Nat 2).addAll [1, 2, 3]).GetLast 1 = [3] := by
  have h := circularBuffer_retains_last_N Nat 2 1 (by decide) [1, 2, 3] rfl
  exact ⟨h.1, h.2.1 5 (by decide), h.2.2 1 (by decide) (by decide)⟩

end Guvnor
